import Mathlib

set_option maxRecDepth 100000

/-!
Verification of the VBRK/VBRP draft-filter rule checker (SAP Note 2768887).

The source program is a small Python service whose core is:
  * a compiled regular expression `SELECT_RE` locating
    `SELECT ... FROM ... INTO ...` statements in free-form source text,
  * `extract_tables` resolving `(table, alias)` pairs from a FROM clause,
  * `_has_draft_check` / `draft_filter_missing` auditing per-alias draft
    filters, and
  * `scan_unit` assembling findings (line ranges, snippet, message).

This file embeds those functions over `List Char`.  The regular expression
is compiled by hand into a family of structurally recursive stage functions
that reproduce the Python `re` engine's backtracking discipline exactly:
lazy quantifiers try the shortest extent first, greedy quantifiers the
longest, alternation tries the left branch first, and a branch is abandoned
only when the whole remainder of the pattern fails on it.  Character classes
(`\s`, `\w`) are embedded with their ASCII meaning, which is exhaustive for
the texts analysed here.
-/

/-- ASCII-lowering of a character code, used for the `re.IGNORECASE` flag. -/
def lowN (c : Char) : Nat :=
  if 65 ≤ c.toNat ∧ c.toNat ≤ 90 then c.toNat + 32 else c.toNat

/-- Case-insensitive literal matching: strip the keyword `kw` from the front
of `s`, returning the remainder.  Embeds a regex literal under IGNORECASE. -/
def stripCI : List Char → List Char → Option (List Char)
  | [], s => some s
  | _ :: _, [] => none
  | k :: kr, c :: cr => if lowN k = lowN c then stripCI kr cr else none

/-- `s` starts with the keyword `kw`, case-insensitively. -/
def prefixCI (kw s : List Char) : Bool := (stripCI kw s).isSome

/-- Python `\s` (ASCII range): space, tab, newline, carriage return,
vertical tab, form feed. -/
def isWS (c : Char) : Bool :=
  c = ' ' || c = '\t' || c = '\n' || c = '\r' || c.toNat = 11 || c.toNat = 12

/-- Python `\w` (ASCII range): letters, digits, underscore. -/
def isWordChar (c : Char) : Bool :=
  (65 ≤ c.toNat && c.toNat ≤ 90) || (97 ≤ c.toNat && c.toNat ≤ 122) ||
  (48 ≤ c.toNat && c.toNat ≤ 57) || c = '_'

/-- The character class `[\w@()\->]` of the INTO-target token. -/
def isIntoChar (c : Char) : Bool :=
  isWordChar c || c = '@' || c = '(' || c = ')' || c = '-' || c = '>'

/-- ASCII upper-casing of one character (Python `str.upper`). -/
def upChar (c : Char) : Char :=
  if 97 ≤ c.toNat ∧ c.toNat ≤ 122 then Char.ofNat (c.toNat - 32) else c

/-- Python `str.upper` (ASCII range). -/
def upper (l : List Char) : List Char := l.map upChar

/-- Python `str.count("\n")`. -/
def countNL (l : List Char) : Nat := (l.filter (fun c => c = '\n')).length

/-- Python `str.strip()` (ASCII whitespace). -/
def stripWS (l : List Char) : List Char :=
  ((l.dropWhile isWS).reverse.dropWhile isWS).reverse

-- Keywords of the statement pattern, as explicit character lists.
def kwSELECT : List Char := ['S', 'E', 'L', 'E', 'C', 'T']
def kwSINGLE : List Char := ['S', 'I', 'N', 'G', 'L', 'E']
def kwFROM : List Char := ['F', 'R', 'O', 'M']
def kwINTO : List Char := ['I', 'N', 'T', 'O']
def kwTABLE : List Char := ['T', 'A', 'B', 'L', 'E']
def kwWHERE : List Char := ['W', 'H', 'E', 'R', 'E']
def kwORDER : List Char := ['O', 'R', 'D', 'E', 'R']
def kwGROUP : List Char := ['G', 'R', 'O', 'U', 'P']
def kwHAVING : List Char := ['H', 'A', 'V', 'I', 'N', 'G']
def kwFOR : List Char := ['F', 'O', 'R']
def kwALL : List Char := ['A', 'L', 'L']
def kwENTRIES : List Char := ['E', 'N', 'T', 'R', 'I', 'E', 'S']
def kwJOIN : List Char := ['J', 'O', 'I', 'N']
def kwON : List Char := ['O', 'N']
def kwAS : List Char := ['A', 'S']
def kwDRAFT : List Char := ['D', 'R', 'A', 'F', 'T']
def kwSPACE : List Char := ['S', 'P', 'A', 'C', 'E']
def kwABAPFALSE : List Char :=
  ['a', 'b', 'a', 'p', '_', 'f', 'a', 'l', 's', 'e']
def kwVBRK : List Char := ['V', 'B', 'R', 'K']
def kwVBRP : List Char := ['V', 'B', 'R', 'P']

/-!
## The statement locator: `SELECT_RE`, compiled by hand

```
SELECT\s+(?:SINGLE\s+)? (?P<fields>.+?) \s+FROM\s+ (?P<from_clause>.*?)
  (?= \s+(WHERE|INTO|ORDER|GROUP|HAVING|FOR\s+ALL\s+ENTRIES|$) )
  (?P<middle>.*?)
  (?: INTO\s+TABLE\s+(?P<into_tab>[\w@()\->]+) | INTO\s+(?P<into_wa>[\w@()\->]+) )
  (?P<tail>.*?) \.
```
(flags IGNORECASE, DOTALL, VERBOSE; the whole body before the final dot is
the named group `full`).

The stages below are written innermost-first.  Wherever a greedy `\s+` is
followed by a token that cannot start with whitespace, the Python engine's
longest-first exploration is deterministic: only the maximal whitespace run
can succeed, so the stage consumes it outright.  Where a greedy `\s+` is
followed by `.+?` / `.*?` (which can absorb whitespace), a genuine
longest-first backtracking loop is kept (`tryWs1`, `tryWs2`, `tryFromWs`).
A match result carries the captured `from_clause` and the unconsumed
remainder of the text; all offsets are recovered from list lengths.
-/

/-- `(?P<tail>.*?)\.` — the lazy tail followed by the literal dot: consume
up to and including the first `'.'`, or fail if there is none. -/
def dotTail : List Char → Option (List Char)
  | [] => none
  | c :: r => if c = '.' then some r else dotTail r

/-- The INTO-target alternation after `INTO\s+` has been consumed:
`TABLE\s+[\w@()\->]+` (left branch) or `[\w@()\->]+` (right branch),
each continued by `dotTail`.  The left branch is tried first, and the
right branch is tried from the same position if the left one fails
anywhere downstream — exactly the regex alternation discipline. -/
def intoAfterWs (s : List Char) : Option (List Char) :=
  (match stripCI kwTABLE s with
   | some r1 =>
     if (r1.takeWhile isWS).isEmpty then none
     else
       if ((r1.dropWhile isWS).takeWhile isIntoChar).isEmpty then none
       else dotTail ((r1.dropWhile isWS).dropWhile isIntoChar)
   | none => none) <|>
  (if (s.takeWhile isIntoChar).isEmpty then none
   else dotTail (s.dropWhile isIntoChar))

/-- `INTO\s+` followed by the target alternation.  The greedy `\s+` is
deterministic here because both alternatives begin with a
non-whitespace character. -/
def intoStage (s : List Char) : Option (List Char) :=
  match stripCI kwINTO s with
  | some r =>
    if (r.takeWhile isWS).isEmpty then none else intoAfterWs (r.dropWhile isWS)
  | none => none

/-- `(?P<middle>.*?)` then the INTO part: lazy scan — try the INTO
alternation at the current position, else skip one character. -/
def middleStage : List Char → Option (List Char)
  | [] => none
  | c :: r => intoStage (c :: r) <|> middleStage r

/-- `FOR\s+ALL\s+ENTRIES` (each `\s+` deterministic before a letter). -/
def forAllEntries (s : List Char) : Bool :=
  match stripCI kwFOR s with
  | some r1 =>
    let w1 := r1.takeWhile isWS
    if w1.isEmpty then false
    else
      match stripCI kwALL (r1.dropWhile isWS) with
      | some r2 =>
        let w2 := r2.takeWhile isWS
        if w2.isEmpty then false
        else prefixCI kwENTRIES (r2.dropWhile isWS)
      | none => false
  | none => false

/-- The lookahead `(?=\s+(WHERE|INTO|ORDER|GROUP|HAVING|FOR\s+ALL\s+ENTRIES|$))`.
After the maximal whitespace run (which must be non-empty) the remainder
must start with one of the clause keywords or be the end of the text.
`$` can only fire at the end: a remainder `['\n']` is impossible after a
maximal whitespace run since `'\n'` is itself whitespace, and keyword
alternatives all start with letters, so shorter whitespace runs can never
succeed — the greedy `\s+` is deterministic. -/
def checkLA (s : List Char) : Bool :=
  let w := s.takeWhile isWS
  let r := s.dropWhile isWS
  !w.isEmpty &&
    (r.isEmpty || prefixCI kwWHERE r || prefixCI kwINTO r ||
     prefixCI kwORDER r || prefixCI kwGROUP r || prefixCI kwHAVING r ||
     forAllEntries r)

/-- One candidate boundary of the lazy `(?P<from_clause>.*?)`: the
lookahead must hold here and the whole remainder of the pattern
(middle, INTO part, tail, dot) must succeed from this position. -/
def fromHere (s : List Char) : Option (List Char) :=
  if checkLA s then middleStage s else none

/-- `(?P<from_clause>.*?)(?=...)` then middle/INTO/tail: lazy scan over the
clause boundary; on failure the clause is extended by one character.
Returns (from_clause, remainder after the final dot). -/
def fromStage (acc : List Char) : List Char → Option (List Char × List Char)
  | [] =>
    match fromHere [] with
    | some rest => some (acc.reverse, rest)
    | none => none
  | c :: r =>
    match fromHere (c :: r) with
    | some rest => some (acc.reverse, rest)
    | none => fromStage (c :: acc) r

/-- Longest-first backtracking over the greedy `\s+` after `FROM` (the
following `.*?` may absorb trailing characters of the whitespace run). -/
def tryFromWs : Nat → List Char → Option (List Char × List Char)
  | 0, _ => none
  | j + 1, s => fromStage [] (s.drop (j + 1)) <|> tryFromWs j s

/-- `FROM\s+` then the from-clause machinery. -/
def fromWs (s : List Char) : Option (List Char × List Char) :=
  tryFromWs (s.takeWhile isWS).length s

/-- One candidate boundary for the lazy `(?P<fields>.+?)`: the boundary
must be followed by `\s+FROM\s+` (the `\s+` before `FROM` is deterministic
because `F` is not whitespace). -/
def fieldsAttempt (s : List Char) : Option (List Char × List Char) :=
  if (s.takeWhile isWS).isEmpty then none
  else
    match stripCI kwFROM (s.dropWhile isWS) with
    | some r2 => fromWs r2
    | none => none

/-- Lazy scan of the fields boundary. -/
def fieldsAuxLoop : List Char → Option (List Char × List Char)
  | [] => none
  | c :: r => fieldsAttempt (c :: r) <|> fieldsAuxLoop r

/-- `(?P<fields>.+?)`: at least one character, then the boundary scan. -/
def fieldsStage : List Char → Option (List Char × List Char)
  | [] => none
  | _ :: r => fieldsAuxLoop r

/-- Longest-first backtracking over the `\s+` after `SINGLE`. -/
def tryWs2 : Nat → List Char → Option (List Char × List Char)
  | 0, _ => none
  | j + 1, s => fieldsStage (s.drop (j + 1)) <|> tryWs2 j s

/-- The greedy optional `(?:SINGLE\s+)?`: try the SINGLE branch first
(with its own whitespace backtracking), then fall through to the fields. -/
def attemptAt (s : List Char) : Option (List Char × List Char) :=
  (match stripCI kwSINGLE s with
   | some r => tryWs2 (r.takeWhile isWS).length r
   | none => none) <|> fieldsStage s

/-- Longest-first backtracking over the `\s+` after `SELECT`. -/
def tryWs1 : Nat → List Char → Option (List Char × List Char)
  | 0, _ => none
  | j + 1, s => attemptAt (s.drop (j + 1)) <|> tryWs1 j s

/-- Everything after the literal `SELECT`. -/
def afterSelect (s : List Char) : Option (List Char × List Char) :=
  tryWs1 (s.takeWhile isWS).length s

/-- Try to match `SELECT_RE` anchored at the head of `s`.  On success
returns the captured `from_clause` and the text remaining after the
terminating dot. -/
def matchSelectAt (s : List Char) : Option (List Char × List Char) :=
  match stripCI kwSELECT s with
  | some r => afterSelect r
  | none => none

/-- One match of `SELECT_RE` as `finditer` reports it: the named group
`full` (the whole statement without the terminating dot), the captured
`from_clause`, and the absolute character span `[mstart, mend)` of group 0
(terminating dot included). -/
structure SelMatch where
  full : List Char
  fromClause : List Char
  mstart : Nat
  mend : Nat
deriving DecidableEq, Repr

/-- `re.finditer` scan: try the pattern at every position, left to right;
after a match, resume at its end.  The fuel is the length of the text:
every step consumes at least one character, so the fuel never runs out
before the text does. -/
def selIterF : Nat → List Char → Nat → List SelMatch
  | 0, _, _ => []
  | _ + 1, [], _ => []
  | f + 1, c :: r, off =>
    match matchSelectAt (c :: r) with
    | some (fc, rest) =>
      let len := (c :: r).length - rest.length
      let step := max len 1
      { full := (c :: r).take (len - 1), fromClause := fc,
        mstart := off, mend := off + len } ::
        selIterF f ((c :: r).drop step) (off + step)
    | none => selIterF f r (off + 1)

/-- All matches of `SELECT_RE` in a text. -/
def selectFinditer (s : List Char) : List SelMatch := selIterF s.length s 0

/-!
## The table/alias resolver: `extract_tables`
-/

/-- A resolved table reference: `{table, alias}`, both upper-cased; the
alias defaults to the table name when absent. -/
structure TableRef where
  table : List Char
  aliasName : List Char
deriving DecidableEq, Repr

/-- A position in the text starts a `\b<kw>\b` match: the previous
character (if any) is not a word character, `kw` matches
case-insensitively, and the character following it (if any) is not a
word character. -/
def kwBoundaryHit (kw : List Char) (prev : Option Char) (s : List Char) : Bool :=
  (match prev with | none => true | some p => !isWordChar p) &&
  (stripCI kw s).isSome &&
  (match s.drop kw.length with | [] => true | c :: _ => !isWordChar c)

/-- Worker for `re.split(r"\b<kw>\b", _, flags=re.IGNORECASE)`: scan left to
right, splitting at each non-overlapping word-bounded occurrence.  The fuel
is the text length; each step consumes at least one character (`kw` is
non-empty), so it never runs out before the text does. -/
def splitKwAux (kw : List Char) : Nat → Option Char → List Char → List Char →
    List (List Char)
  | _, _, acc, [] => [acc.reverse]
  | 0, _, acc, s => [acc.reverse ++ s]
  | f + 1, prev, acc, c :: r =>
    if kwBoundaryHit kw prev (c :: r) then
      acc.reverse ::
        splitKwAux kw f (some (kw.getLastD c)) [] ((c :: r).drop kw.length)
    else splitKwAux kw f (some c) (c :: acc) r

/-- `re.split` on a word-bounded, case-insensitive keyword. -/
def splitKw (kw : List Char) (s : List Char) : List (List Char) :=
  splitKwAux kw s.length none [] s

/-- Python `str.split(",")`. -/
def splitCommas : List Char → List (List Char)
  | [] => [[]]
  | c :: r =>
    if c = ',' then [] :: splitCommas r
    else
      match splitCommas r with
      | [] => [[c]]
      | p :: ps => (c :: p) :: ps

/-- The anchored match of `tbl_alias_re = (\w+)(?:\s+(?:AS\s+)?(\w+))?`
against a candidate token: a leading word (the table), optionally followed
by whitespace, an optional `AS`, and a second word (the alias).  Returns
`(group 1, group 2)`.  The Python engine's backtracking is deterministic
here: the leading `(\w+)` always keeps its maximal run (the optional suffix
can be skipped), and if `AS\s+` cannot be completed the engine falls back
to reading the alias word directly. -/
def tblAliasMatch (cand : List Char) : Option (List Char × Option (List Char)) :=
  let w1 := cand.takeWhile isWordChar
  let r1 := cand.dropWhile isWordChar
  if w1.isEmpty then none
  else
    let ws := r1.takeWhile isWS
    let r2 := r1.dropWhile isWS
    if ws.isEmpty then some (w1, none)
    else
      let fb := r2.takeWhile isWordChar
      let fallback : Option (List Char × Option (List Char)) :=
        if fb.isEmpty then some (w1, none) else some (w1, some fb)
      match stripCI kwAS r2 with
      | some r3 =>
        let ws2 := r3.takeWhile isWS
        if ws2.isEmpty then fallback
        else
          let w2 := (r3.dropWhile isWS).takeWhile isWordChar
          if w2.isEmpty then fallback else some (w1, some w2)
      | none => fallback

/-- `extract_tables`: split the FROM clause on `JOIN`, keep each segment's
prefix before `ON`, split on commas, and resolve each stripped candidate
through `tbl_alias_re`; table and alias are upper-cased, the alias
defaulting to the table name. -/
def extract_tables (from_clause : List Char) : List TableRef :=
  (splitKw kwJOIN from_clause).flatMap (fun join_part =>
    let seg := (splitKw kwON join_part).headD []
    (splitCommas seg).filterMap (fun candidate =>
      let cand := stripWS candidate
      if cand.isEmpty then none
      else
        match tblAliasMatch cand with
        | none => none
        | some (g1, g2) =>
          let table := upper g1
          let al := upper (g2.getD g1)
          if table.isEmpty then none else some { table := table, aliasName := al }))

/-!
## The draft-filter auditor: `_has_draft_check`, `draft_filter_missing`
-/

/-- The apostrophe character, written by code to keep source text plain. -/
def squo : Char := Char.ofNat 39

/-- The accepted false-literal alternation
`(SPACE|' '|\"\"|''|abap_false|ABAP_FALSE)` — a prefix test, matched
case-insensitively. -/
def draftLitOK (s : List Char) : Bool :=
  prefixCI kwSPACE s || prefixCI [squo, ' ', squo] s || prefixCI ['"', '"'] s ||
  prefixCI [squo, squo] s || prefixCI kwABAPFALSE s

/-- After the alias has been consumed: `\s*~\s*draft\s*=\s*<false-literal>`.
Each greedy `\s*` is deterministic because the token that follows it cannot
start with whitespace. -/
def draftTailOk (s : List Char) : Bool :=
  match s.dropWhile isWS with
  | '~' :: r =>
    (match stripCI kwDRAFT (r.dropWhile isWS) with
     | some r2 =>
       (match r2.dropWhile isWS with
        | '=' :: r4 => draftLitOK (r4.dropWhile isWS)
        | _ => false)
     | none => false)
  | _ => false

/-- The draft-filter pattern anchored at the head of `s` for a given alias. -/
def draftAt (al s : List Char) : Bool :=
  match stripCI al s with
  | some r => draftTailOk r
  | none => false

/-- `re.search`: the pattern matches at some position of the text. -/
def searchDraftAux (al : List Char) : List Char → Bool
  | [] => draftAt al []
  | c :: r => draftAt al (c :: r) || searchDraftAux al r

/-- `_has_draft_check(sel_stmt, alias)`: the statement text contains
`alias~draft = SPACE / ' ' / "" / '' / abap_false` (case-insensitive,
whitespace-tolerant) somewhere. -/
def has_draft_check (sel_stmt al : List Char) : Bool :=
  searchDraftAux al sel_stmt

/-- The table is VBRK or VBRP (`t["table"] in ("VBRK", "VBRP")`). -/
def isVTable (t : TableRef) : Bool := t.table = kwVBRK || t.table = kwVBRP

/-- `draft_filter_missing`: true iff at least one VBRK/VBRP alias of the
statement lacks a draft filter. -/
def draft_filter_missing (sel_stmt : List Char) (tables : List TableRef) : Bool :=
  if (tables.filter isVTable).isEmpty then false
  else if (tables.filter isVTable).all
      (fun t => has_draft_check sel_stmt t.aliasName) then false
  else true

/-!
## The unit scanner: `find_selects`, `get_line_snippet`, `scan_unit`
-/

/-- One entry of the list built by `find_selects`: the statement text
(named group `full`), its resolved tables, and the match span. -/
structure Sel where
  text : List Char
  tables : List TableRef
  sstart : Nat
  send : Nat
deriving DecidableEq, Repr

/-- `find_selects`: all `SELECT_RE` matches whose FROM clause references
VBRK or VBRP; other spans are discarded. -/
def find_selects (txt : List Char) : List Sel :=
  (selectFinditer txt).filterMap (fun m =>
    if ((extract_tables m.fromClause).filter isVTable).isEmpty then none
    else some { text := m.full, tables := extract_tables m.fromClause,
                sstart := m.mstart, send := m.mend })

/-- Largest index of `'\n'` in `l` (Python `str.rfind` over a prefix). -/
def lastNLIdx : List Char → Option Nat
  | [] => none
  | c :: r =>
    match lastNLIdx r with
    | some i => some (i + 1)
    | none => if c = '\n' then some 0 else none

/-- Smallest index of `'\n'` in `l` (Python `str.find`). -/
def firstNLIdx : List Char → Option Nat
  | [] => none
  | c :: r => if c = '\n' then some 0 else (firstNLIdx r).map (· + 1)

/-- `get_line_snippet`: the full line(s) of text containing the match span
`[s, e)` — from just after the nearest newline before `s` (or the start of
text) to the nearest newline at or after `e` (or the end of text),
newlines exclusive. -/
def get_line_snippet (text : List Char) (s e : Nat) : List Char :=
  let line_start :=
    match lastNLIdx (text.take s) with
    | none => 0
    | some i => i + 1
  let line_end :=
    match firstNLIdx (text.drop e) with
    | none => text.length
    | some j => e + j
  (text.take line_end).drop line_start

/-- Escape embedded newlines (`str.replace("\n", "\\n")`). -/
def escapeNL (l : List Char) : List Char :=
  l.flatMap (fun c => if c = '\n' then ['\\', 'n'] else [c])

/-- The `Finding` model: one reported violation.  All fields are optional
in the source model; the scanner fills every one of them. -/
structure Finding where
  prog_name : Option String
  incl_name : Option String
  types : Option String
  blockname : Option String
  starting_line : Option Int
  ending_line : Option Int
  issues_type : Option String
  severity : Option String
  message : Option String
  suggestion : Option String
  snippet : Option String
deriving DecidableEq, Repr

/-- The `Unit` model of the source (named `SourceUnit` here since `Unit` is
taken by Lean's core); the Python field `type` is rendered `utype`. -/
structure SourceUnit where
  pgm_name : String
  inc_name : String
  utype : String
  name : Option String
  class_implementation : Option String
  start_line : Option Int
  end_line : Option Int
  code : Option String
  findings : Option (List Finding)
deriving DecidableEq, Repr

/-- The fixed violation message. -/
def msgText : String :=
  "SELECT on VBRK/VBRP without draft filter per SAP Note 2768887."

/-- The remediation suggestion built around the table list. -/
def sugText (table_list : String) : String :=
  "For this SELECT on " ++ table_list ++
    ", add draft filter condition(s) alias~draft = space for all VBRK/VBRP aliases involved."

/-- The comma-joined `"<TABLE> (<ALIAS>)"` list over the statement's
VBRK/VBRP tables, in resolver order. -/
def tableListStr (tables : List TableRef) : String :=
  String.intercalate ", "
    ((tables.filter isVTable).map (fun t =>
      String.mk t.table ++ " (" ++ String.mk t.aliasName ++ ")"))

/-- The finding built for one violating statement (the loop body of
`scan_unit`). -/
def buildFinding (u : SourceUnit) (src : List Char) (sel : Sel) : Finding :=
  let base_start := u.start_line.getD 0
  let line_in_block : Nat := countNL (src.take sel.sstart) + 1
  let snippet_line := get_line_snippet src sel.sstart sel.send
  let snippet_line_count : Nat := countNL snippet_line + 1
  { prog_name := some u.pgm_name
    incl_name := some u.inc_name
    types := some u.utype
    blockname := u.name
    starting_line := some (base_start + (line_in_block : Int))
    ending_line := some (base_start + (line_in_block : Int) + (snippet_line_count : Int))
    issues_type := some "MissingDraftFilter"
    severity := some "error"
    message := some msgText
    suggestion := some (sugText (tableListStr sel.tables))
    snippet := some (String.mk (escapeNL snippet_line)) }

/-- The ordered list of findings of one unit: every located statement whose
draft filter is missing for at least one VBRK/VBRP alias. -/
def scanFindings (u : SourceUnit) : List Finding :=
  (find_selects ((u.code.getD "").toList)).filterMap (fun sel =>
    if draft_filter_missing sel.text sel.tables then
      some (buildFinding u ((u.code.getD "").toList) sel)
    else none)

/-- `findings if findings else None`: an empty list is reported as an
absent field, never as an empty sequence. -/
def optList (l : List Finding) : Option (List Finding) :=
  if l.isEmpty then none else some l

/-- `scan_unit`: a copy of the unit with the findings field populated (or
left absent when there is no violation). -/
def scan_unit (u : SourceUnit) : SourceUnit :=
  { u with findings := optList (scanFindings u) }

/-!
## Concrete inputs for the claims, and auxiliary predicates
-/

/-- A unit with fixed identifying metadata around a given code text and
start-line offset. -/
def mkUnit (c : String) (sl : Int) : SourceUnit :=
  { pgm_name := "ZPROG", inc_name := "ZINC", utype := "PROG", name := some "",
    class_implementation := none, start_line := some sl, end_line := some 0,
    code := some c, findings := none }

def stmtC1 : String := "SELECT a~vbeln FROM vbrk AS a INTO TABLE @lt_result."

def uC1 : SourceUnit := mkUnit stmtC1 0

def stmtC2 : String :=
  "SELECT * FROM vbrk AS a JOIN vbrp AS b ON a~vbeln = b~vbeln INTO TABLE @lt WHERE a~draft = space."

def uC2 : SourceUnit := mkUnit stmtC2 0

def stmtC3 : String :=
  "SELECT * FROM vbrk AS a JOIN vbrp AS b ON a~vbeln = b~vbeln INTO TABLE @lt WHERE a~draft = space AND b~draft = abap_false."

def uC3 : SourceUnit := mkUnit stmtC3 0

def stmtC5 : String := "SELECT * FROM vbrk INTO TABLE @lt."

def uC5 : SourceUnit := mkUnit stmtC5 0

def uC6w : SourceUnit := mkUnit "WRITE hello." 0

def stmtC7 : String :=
  "WRITE 1.\nWRITE 2.\nWRITE 3.\nWRITE 4.\nSELECT * FROM vbrk INTO TABLE @lt.\n"

def uC7 : SourceUnit := mkUnit stmtC7 100

/-- The finding computed for `uC7` (the statement starts on the 5th
physical line, unit offset 100). -/
def fC7 : Finding :=
  { prog_name := some "ZPROG", incl_name := some "ZINC", types := some "PROG",
    blockname := some "", starting_line := some 105, ending_line := some 106,
    issues_type := some "MissingDraftFilter", severity := some "error",
    message := some msgText, suggestion := some (sugText "VBRK (VBRK)"),
    snippet := some "SELECT * FROM vbrk INTO TABLE @lt." }

def stmtC8 : String := "SELECT *\n  FROM vbrk INTO TABLE @lt.\n"

def uC8 : SourceUnit := mkUnit stmtC8 0

/-- The finding computed for `uC8` (a statement spanning two physical
lines; the snippet keeps one embedded newline, escaped). -/
def fC8 : Finding :=
  { prog_name := some "ZPROG", incl_name := some "ZINC", types := some "PROG",
    blockname := some "", starting_line := some 1, ending_line := some 3,
    issues_type := some "MissingDraftFilter", severity := some "error",
    message := some msgText, suggestion := some (sugText "VBRK (VBRK)"),
    snippet := some "SELECT *\\n  FROM vbrk INTO TABLE @lt." }

def stmtC9 : String := "SELECT * FROM vbrk WHERE vbeln = 1."

def uC9 : SourceUnit := mkUnit stmtC9 0

/-- The single `SELECT_RE` match of `stmtC1` (used to instantiate the
universal part of C9). -/
def mC9w : SelMatch :=
  { full := "SELECT a~vbeln FROM vbrk AS a INTO TABLE @lt_result".toList,
    fromClause := "vbrk AS a".toList, mstart := 0, mend := 52 }

def stmtC10 : String :=
  "SELECT * FROM vbrk AS a JOIN vbrp AS ba ON a~vbeln = ba~vbeln INTO TABLE @lt WHERE ba~draft = space."

def uC10 : SourceUnit := mkUnit stmtC10 0

/-- The text starts with the literal `INTO` (case-insensitive) followed by
at least one whitespace character — the unavoidable backbone of both
INTO-target alternatives of `SELECT_RE`. -/
def intoWsAt (s : List Char) : Bool :=
  match stripCI kwINTO s with
  | some r => !(r.takeWhile isWS).isEmpty
  | none => false

/-- Some position of the text satisfies `intoWsAt`. -/
def containsIntoWs : List Char → Bool
  | [] => intoWsAt []
  | c :: r => intoWsAt (c :: r) || containsIntoWs r

/-- Invariant threaded through the matcher stages: the text `s` contains an
`INTO` + whitespace occurrence at offset `k`, lying strictly inside the
consumed region (`r` being the unconsumed remainder), with room for the
INTO token, its whitespace and the terminating dot. -/
def IntoPred (s r : List Char) : Prop :=
  ∃ k, intoWsAt (s.drop k) = true ∧ k + 7 + r.length ≤ s.length

/-!
## Support lemmas
-/

theorem opt_orElse_cases {α : Type} {a b : Option α} {x : α}
    (h : (a <|> b) = some x) : a = some x ∨ b = some x := by
  cases a with
  | none => exact Or.inr h
  | some v => exact Or.inl h

theorem stripCI_drop {kw l r : List Char} (h : stripCI kw l = some r) :
    r = l.drop kw.length := by
  induction kw generalizing l with
  | nil =>
    simp only [stripCI, Option.some.injEq] at h
    simp [h.symm]
  | cons k kr ih =>
    cases l with
    | nil => simp [stripCI] at h
    | cons c cr =>
      simp only [stripCI] at h
      split at h
      · simpa using ih h
      · exact absurd h (by simp)

theorem stripCI_len {kw l r : List Char} (h : stripCI kw l = some r) :
    r.length + kw.length = l.length := by
  induction kw generalizing l with
  | nil =>
    simp only [stripCI, Option.some.injEq] at h
    simp [h.symm]
  | cons k kr ih =>
    cases l with
    | nil => simp [stripCI] at h
    | cons c cr =>
      simp only [stripCI] at h
      split at h
      · have := ih h
        simp only [List.length_cons]
        omega
      · exact absurd h (by simp)

theorem tw_dw_len (p : Char → Bool) (l : List Char) :
    (l.takeWhile p).length + (l.dropWhile p).length = l.length := by
  conv_rhs => rw [← List.takeWhile_append_dropWhile (p := p) (l := l)]
  rw [List.length_append]

theorem dropWhile_eq_drop (p : Char → Bool) (l : List Char) :
    l.dropWhile p = l.drop (l.takeWhile p).length := by
  induction l with
  | nil => rfl
  | cons c r ih =>
    by_cases hc : p c
    · simp [List.dropWhile_cons, List.takeWhile_cons, hc, ih]
    · simp [List.dropWhile_cons, List.takeWhile_cons, hc]

theorem len_pos_of_not_isEmpty {l : List Char} (h : ¬ l.isEmpty = true) :
    1 ≤ l.length := by
  cases l with
  | nil => exact absurd rfl h
  | cons a t => simp

theorem dotTail_len {s r : List Char} (h : dotTail s = some r) :
    r.length + 1 ≤ s.length := by
  induction s with
  | nil => simp [dotTail] at h
  | cons c t ih =>
    simp only [dotTail] at h
    split at h
    · injection h with h
      simp [h.symm]
    · have := ih h
      simp only [List.length_cons]
      omega

theorem intoAfterWs_len {s r : List Char} (h : intoAfterWs s = some r) :
    r.length + 2 ≤ s.length := by
  rcases opt_orElse_cases h with h1 | h2
  · split at h1
    · next r1 heq =>
      split at h1
      · exact absurd h1 (by simp)
      · next hw =>
        split at h1
        · exact absurd h1 (by simp)
        · next hcls =>
          have hd := dotTail_len h1
          have hl := stripCI_len heq
          have ht1 := tw_dw_len isWS r1
          have ht2 := tw_dw_len isIntoChar (r1.dropWhile isWS)
          have hw1 := len_pos_of_not_isEmpty hw
          have hc1 := len_pos_of_not_isEmpty hcls
          omega
    · exact absurd h1 (by simp)
  · split at h2
    · exact absurd h2 (by simp)
    · next hcls =>
      have hd := dotTail_len h2
      have ht := tw_dw_len isIntoChar s
      have hc1 := len_pos_of_not_isEmpty hcls
      omega

theorem intoStage_spec {s r : List Char} (h : intoStage s = some r) :
    intoWsAt s = true ∧ r.length + 7 ≤ s.length := by
  unfold intoStage at h
  split at h
  · next r1 heq =>
    split at h
    · exact absurd h (by simp)
    · next hw =>
      refine ⟨?_, ?_⟩
      · unfold intoWsAt
        rw [heq]
        simpa using hw
      · have h2 := intoAfterWs_len h
        have h3 := stripCI_len heq
        have h4 := tw_dw_len isWS r1
        have h5 := len_pos_of_not_isEmpty hw
        have h6 : kwINTO.length = 4 := rfl
        omega
  · exact absurd h (by simp)

theorem intoPred_drop {s r : List Char} (d : Nat) (h : IntoPred (s.drop d) r) :
    IntoPred s r := by
  obtain ⟨k, hk, hb⟩ := h
  refine ⟨d + k, ?_, ?_⟩
  · rw [← List.drop_drop]
    exact hk
  · have := List.length_drop d s
    omega

theorem intoPred_cons {c : Char} {t r : List Char} (h : IntoPred t r) :
    IntoPred (c :: t) r :=
  intoPred_drop 1 h

theorem middleStage_pred {s r : List Char} (h : middleStage s = some r) :
    IntoPred s r := by
  induction s with
  | nil => simp [middleStage] at h
  | cons c t ih =>
    rcases opt_orElse_cases (by simpa [middleStage] using h) with h1 | h2
    · obtain ⟨hw, hl⟩ := intoStage_spec h1
      exact ⟨0, by simpa using hw, by simp only [List.length_cons] at hl ⊢; omega⟩
    · exact intoPred_cons (ih h2)

theorem fromHere_pred {s r : List Char} (h : fromHere s = some r) : IntoPred s r := by
  unfold fromHere at h
  split at h
  · exact middleStage_pred h
  · exact absurd h (by simp)

theorem fromStage_pred {s : List Char} :
    ∀ {acc fc r : List Char}, fromStage acc s = some (fc, r) → IntoPred s r := by
  induction s with
  | nil =>
    intro acc fc r h
    simp only [fromStage] at h
    split at h
    · next rest heq =>
      cases h
      exact fromHere_pred heq
    · exact absurd h (by simp)
  | cons c t ih =>
    intro acc fc r h
    simp only [fromStage] at h
    split at h
    · next rest heq =>
      cases h
      exact fromHere_pred heq
    · exact intoPred_cons (ih h)

theorem tryFromWs_pred :
    ∀ (j : Nat) {s fc r : List Char}, tryFromWs j s = some (fc, r) → IntoPred s r := by
  intro j
  induction j with
  | zero => intro s fc r h; simp [tryFromWs] at h
  | succ n ih =>
    intro s fc r h
    rcases opt_orElse_cases (by simpa [tryFromWs] using h) with h1 | h2
    · exact intoPred_drop (n + 1) (fromStage_pred h1)
    · exact ih h2

theorem fieldsAttempt_pred {s fc r : List Char}
    (h : fieldsAttempt s = some (fc, r)) : IntoPred s r := by
  unfold fieldsAttempt at h
  split at h
  · exact absurd h (by simp)
  · split at h
    · next r2 heq =>
      have hp : IntoPred r2 r := tryFromWs_pred _ (by simpa [fromWs] using h)
      rw [stripCI_drop heq, dropWhile_eq_drop] at hp
      exact intoPred_drop _ (intoPred_drop _ hp)
    · exact absurd h (by simp)

theorem fieldsAuxLoop_pred :
    ∀ {s fc r : List Char}, fieldsAuxLoop s = some (fc, r) → IntoPred s r := by
  intro s
  induction s with
  | nil => intro fc r h; simp [fieldsAuxLoop] at h
  | cons c t ih =>
    intro fc r h
    rcases opt_orElse_cases (by simpa [fieldsAuxLoop] using h) with h1 | h2
    · exact fieldsAttempt_pred h1
    · exact intoPred_cons (ih h2)

theorem fieldsStage_pred {s fc r : List Char}
    (h : fieldsStage s = some (fc, r)) : IntoPred s r := by
  cases s with
  | nil => simp [fieldsStage] at h
  | cons c t => exact intoPred_cons (fieldsAuxLoop_pred (by simpa [fieldsStage] using h))

theorem tryWs2_pred :
    ∀ (j : Nat) {s fc r : List Char}, tryWs2 j s = some (fc, r) → IntoPred s r := by
  intro j
  induction j with
  | zero => intro s fc r h; simp [tryWs2] at h
  | succ n ih =>
    intro s fc r h
    rcases opt_orElse_cases (by simpa [tryWs2] using h) with h1 | h2
    · exact intoPred_drop (n + 1) (fieldsStage_pred h1)
    · exact ih h2

theorem attemptAt_pred {s fc r : List Char}
    (h : attemptAt s = some (fc, r)) : IntoPred s r := by
  rcases opt_orElse_cases (by simpa [attemptAt] using h) with h1 | h2
  · split at h1
    · next r1 heq =>
      have hp := tryWs2_pred _ h1
      rw [stripCI_drop heq] at hp
      exact intoPred_drop _ hp
    · exact absurd h1 (by simp)
  · exact fieldsStage_pred h2

theorem tryWs1_pred :
    ∀ (j : Nat) {s fc r : List Char}, tryWs1 j s = some (fc, r) → IntoPred s r := by
  intro j
  induction j with
  | zero => intro s fc r h; simp [tryWs1] at h
  | succ n ih =>
    intro s fc r h
    rcases opt_orElse_cases (by simpa [tryWs1] using h) with h1 | h2
    · exact intoPred_drop (n + 1) (attemptAt_pred h1)
    · exact ih h2

theorem matchSelectAt_pred {s fc rest : List Char}
    (h : matchSelectAt s = some (fc, rest)) : IntoPred s rest := by
  unfold matchSelectAt at h
  split at h
  · next r heq =>
    have hp := tryWs1_pred _ (by simpa [afterSelect] using h)
    rw [stripCI_drop heq] at hp
    exact intoPred_drop _ hp
  · exact absurd h (by simp)

theorem stripCI_take {kw l r : List Char} (n : Nat) (h : stripCI kw l = some r)
    (hn : kw.length ≤ n) :
    stripCI kw (l.take n) = some (r.take (n - kw.length)) := by
  induction kw generalizing l n with
  | nil =>
    simp only [stripCI, Option.some.injEq] at h ⊢
    simp [h.symm]
  | cons k kr ih =>
    cases l with
    | nil => simp [stripCI] at h
    | cons c cr =>
      cases n with
      | zero => simp [List.length_cons] at hn
      | succ m =>
        simp only [List.take_succ_cons, stripCI] at h ⊢
        split at h
        · next hc =>
          rw [if_pos hc, ih m h (by simp only [List.length_cons] at hn; omega)]
          simp [Nat.succ_sub_succ]
        · exact absurd h (by simp)

theorem intoWsAt_take {l : List Char} (n : Nat) (h : intoWsAt l = true) (hn : 5 ≤ n) :
    intoWsAt (l.take n) = true := by
  have h4 : kwINTO.length = 4 := rfl
  unfold intoWsAt at h ⊢
  split at h
  · next r heq =>
    rw [stripCI_take n heq (by omega)]
    cases hr : r with
    | nil => rw [hr] at h; simp at h
    | cons c r2 =>
      rw [hr] at h
      by_cases hc : isWS c
      · have hm : n - kwINTO.length = (n - kwINTO.length - 1) + 1 := by omega
        rw [hm, List.take_succ_cons]
        simp [List.takeWhile_cons, hc]
      · simp [List.takeWhile_cons, hc] at h
  · simp at h

theorem containsIntoWs_drop {l : List Char} (k : Nat)
    (h : intoWsAt (l.drop k) = true) : containsIntoWs l = true := by
  induction l generalizing k with
  | nil => simpa [containsIntoWs] using h
  | cons c t ih =>
    cases k with
    | zero => simp only [containsIntoWs, List.drop_zero] at h ⊢; simp [h]
    | succ m =>
      have := ih (k := m) (by simpa using h)
      simp [containsIntoWs, this]

theorem matchSelectAt_full {s fc rest : List Char}
    (h : matchSelectAt s = some (fc, rest)) :
    containsIntoWs (s.take (s.length - rest.length - 1)) = true := by
  obtain ⟨k, hk, hb⟩ := matchSelectAt_pred h
  refine containsIntoWs_drop k ?_
  rw [List.drop_take]
  exact intoWsAt_take _ hk (by omega)

theorem selIterF_full :
    ∀ (fuel : Nat) (s : List Char) (off : Nat) (m : SelMatch),
      m ∈ selIterF fuel s off → containsIntoWs m.full = true := by
  intro fuel
  induction fuel with
  | zero => intro s off m h; simp [selIterF] at h
  | succ f ih =>
    intro s off m h
    cases s with
    | nil => simp [selIterF] at h
    | cons c r =>
      simp only [selIterF] at h
      split at h
      · next fc rest heq =>
        rcases List.mem_cons.mp h with h1 | h2
        · rw [h1]
          exact matchSelectAt_full heq
        · exact ih _ _ _ h2
      · exact ih _ _ _ h

theorem stripCI_append {a b l r : List Char} (h : stripCI (a ++ b) l = some r) :
    ∃ t, stripCI a l = some t ∧ stripCI b t = some r := by
  induction a generalizing l with
  | nil => exact ⟨l, rfl, by simpa using h⟩
  | cons k kr ih =>
    cases l with
    | nil => simp [stripCI] at h
    | cons c cr =>
      simp only [List.cons_append, stripCI] at h
      split at h
      · next hc =>
        obtain ⟨t, h1, h2⟩ := ih h
        refine ⟨t, ?_, h2⟩
        simp only [stripCI]
        rw [if_pos hc]
        exact h1
      · exact absurd h (by simp)

theorem draftAt_suffix_transfer {Z X t : List Char}
    (h : draftAt (Z ++ X) t = true) : draftAt X (t.drop Z.length) = true := by
  unfold draftAt at h ⊢
  split at h
  · next r heq =>
    obtain ⟨t2, h1, h2⟩ := stripCI_append heq
    rw [stripCI_drop h1] at h2
    simp only [h2]
    exact h
  · simp at h

theorem searchDraft_exists {al stmt : List Char} (h : searchDraftAux al stmt = true) :
    ∃ t, t <:+ stmt ∧ draftAt al t = true := by
  induction stmt with
  | nil => exact ⟨[], List.nil_suffix, by simpa [searchDraftAux] using h⟩
  | cons c r ih =>
    simp only [searchDraftAux, Bool.or_eq_true] at h
    rcases h with h1 | h2
    · exact ⟨c :: r, List.suffix_refl _, h1⟩
    · obtain ⟨t, ht, hd⟩ := ih h2
      exact ⟨t, ht.trans (List.suffix_cons c r), hd⟩

theorem searchDraft_of_suffix {al t stmt : List Char} (hs : t <:+ stmt)
    (hd : draftAt al t = true) : searchDraftAux al stmt = true := by
  induction stmt with
  | nil =>
    have : t = [] := List.suffix_nil.mp hs
    rw [this] at hd
    simpa [searchDraftAux] using hd
  | cons c r ih =>
    rcases List.suffix_cons_iff.mp hs with h1 | h2
    · rw [h1] at hd
      simp [searchDraftAux, hd]
    · simp [searchDraftAux, ih h2]

theorem hasDraft_suffix_transfer {stmt Y X : List Char} (hXY : X <:+ Y)
    (h : has_draft_check stmt Y = true) : has_draft_check stmt X = true := by
  obtain ⟨Z, hZ⟩ := hXY
  unfold has_draft_check at h ⊢
  obtain ⟨t, hts, htd⟩ := searchDraft_exists h
  rw [← hZ] at htd
  exact searchDraft_of_suffix ((List.drop_suffix _ _).trans hts)
    (draftAt_suffix_transfer htd)

/-!
## The claims
-/

/-- C1: scanning a unit whose code is the single statement
`SELECT a~vbeln FROM vbrk AS a INTO TABLE @lt_result.` (which carries no
draft predicate) yields exactly one finding; that finding has issue kind
`MissingDraftFilter`, severity `error`, and its suggestion's table list is
`VBRK (A)`. -/
theorem claim_C1 :
    ∃ f : Finding, (scan_unit uC1).findings = some [f] ∧
      f.issues_type = some "MissingDraftFilter" ∧
      f.severity = some "error" ∧
      f.suggestion = some (sugText "VBRK (A)") :=
  ⟨_, rfl, rfl, rfl, rfl⟩

/-- C2: for the two-table join
`SELECT * FROM vbrk AS a JOIN vbrp AS b ON a~vbeln = b~vbeln INTO TABLE @lt
WHERE a~draft = space.` the scan produces exactly one finding: the resolver
yields aliases A (VBRK) and B (VBRP), alias A carries the draft predicate
but alias B does not, so the statement is a violation. -/
theorem claim_C2 :
    (∃ f, (scan_unit uC2).findings = some [f]) ∧
    (∃ sel, find_selects stmtC2.toList = [sel] ∧
      sel.tables = [⟨kwVBRK, ['A']⟩, ⟨kwVBRP, ['B']⟩] ∧
      has_draft_check sel.text ['A'] = true ∧
      has_draft_check sel.text ['B'] = false ∧
      draft_filter_missing sel.text sel.tables = true) :=
  ⟨⟨_, rfl⟩, ⟨_, rfl, rfl, rfl, rfl, rfl⟩⟩

/-- C3: the draft-filter check accepts `A~DRAFT = ABAP_FALSE`,
`a~draft = ' '` and `a~draft = SPACE` (case-insensitively), tolerates
whitespace around `~` and `=`, and a statement in which every VBRK/VBRP
alias carries such a predicate is compliant: `draft_filter_missing` is
false and the scan of a fully filtered join yields no finding. -/
theorem claim_C3 :
    has_draft_check "A~DRAFT = ABAP_FALSE".toList ['A'] = true ∧
    has_draft_check ("a~draft = ".toList ++ [squo, ' ', squo]) ['A'] = true ∧
    has_draft_check "a~draft = SPACE".toList ['A'] = true ∧
    has_draft_check "a  ~  draft  =  space".toList ['A'] = true ∧
    (∀ (stmt : List Char) (tables : List TableRef),
      (∀ t ∈ tables.filter isVTable, has_draft_check stmt t.aliasName = true) →
      draft_filter_missing stmt tables = false) ∧
    (scan_unit uC3).findings = none := by
  refine ⟨rfl, rfl, rfl, rfl, ?_, rfl⟩
  intro stmt tables hall
  unfold draft_filter_missing
  split
  · rfl
  · rw [if_pos (List.all_eq_true.mpr (fun t ht => hall t ht))]

/-- Instance of the universal part of C3 at a concrete statement and
table list. -/
theorem claim_C3_witness :
    draft_filter_missing "a~draft = space".toList [⟨kwVBRK, ['A']⟩] = false :=
  claim_C3.2.2.2.2.1 _ _ (by decide)

/-- C4: the scanner never returns an empty findings list — the findings
field of the result is either absent or a non-empty list. -/
theorem claim_C4 (u : SourceUnit) :
    (scan_unit u).findings = none ∨
    ∃ f fs, (scan_unit u).findings = some (f :: fs) := by
  show optList (scanFindings u) = none ∨
    ∃ f fs, optList (scanFindings u) = some (f :: fs)
  cases h : scanFindings u with
  | nil => exact Or.inl rfl
  | cons a t => exact Or.inr ⟨a, t, rfl⟩

/-- Instance of C4 at a concrete unit. -/
theorem claim_C4_witness :
    (scan_unit uC1).findings = none ∨
    ∃ f fs, (scan_unit uC1).findings = some (f :: fs) :=
  claim_C4 uC1

/-- C5: `SELECT * FROM vbrk INTO TABLE @lt.` resolves to the pair
(table VBRK, alias VBRK) — the alias defaulting to the table name — and is
flagged, since no `vbrk~draft = <false-literal>` predicate occurs. -/
theorem claim_C5 :
    extract_tables "vbrk".toList = [⟨kwVBRK, kwVBRK⟩] ∧
    (selectFinditer stmtC5.toList).map SelMatch.fromClause = ["vbrk".toList] ∧
    has_draft_check stmtC5.toList kwVBRK = false ∧
    (∃ f, (scan_unit uC5).findings = some [f] ∧
      f.issues_type = some "MissingDraftFilter") :=
  ⟨rfl, rfl, rfl, ⟨_, rfl, rfl⟩⟩

/-- C6: if every span located in a unit's code has a resolved table list
containing neither VBRK nor VBRP, all spans are discarded
(`find_selects` is empty) and the scan reports no findings. -/
theorem claim_C6 (u : SourceUnit)
    (h : ∀ m ∈ selectFinditer ((u.code.getD "").toList),
      (extract_tables m.fromClause).filter isVTable = []) :
    find_selects ((u.code.getD "").toList) = [] ∧
    (scan_unit u).findings = none := by
  have hfs : find_selects ((u.code.getD "").toList) = [] := by
    unfold find_selects
    refine List.filterMap_eq_nil_iff.mpr ?_
    intro m hm
    simp [h m hm]
  refine ⟨hfs, ?_⟩
  show optList (scanFindings u) = none
  unfold scanFindings
  rw [hfs]
  rfl

/-- Instance of C6 at a unit whose code contains no SELECT at all. -/
theorem claim_C6_witness :
    find_selects ((uC6w.code.getD "").toList) = [] ∧
    (scan_unit uC6w).findings = none :=
  claim_C6 uC6w (by decide)

/-- C7: every finding's starting line is the unit's start-line offset plus
the 1-based line number of the statement span's start (newlines before the
span start, plus one); concretely, a flagged statement on the 5th physical
line of a unit with offset 100 is reported at line 105. -/
theorem claim_C7 :
    (∀ (u : SourceUnit) (f : Finding), f ∈ scanFindings u →
      ∃ sel, sel ∈ find_selects ((u.code.getD "").toList) ∧
        f.starting_line = some ((u.start_line.getD 0) +
          ((countNL (((u.code.getD "").toList).take sel.sstart) + 1 : Nat) : Int))) ∧
    (∃ f, (scan_unit uC7).findings = some [f] ∧ f.starting_line = some 105) := by
  constructor
  · intro u f hf
    unfold scanFindings at hf
    rw [List.mem_filterMap] at hf
    obtain ⟨sel, hsel, hif⟩ := hf
    split at hif
    · injection hif with hif
      refine ⟨sel, hsel, ?_⟩
      rw [← hif]
      rfl
    · exact absurd hif (by simp)
  · exact ⟨_, rfl, rfl⟩

/-- Instance of the universal part of C7 at the computed finding of `uC7`. -/
theorem claim_C7_witness :
    ∃ sel, sel ∈ find_selects ((uC7.code.getD "").toList) ∧
      fC7.starting_line = some ((uC7.start_line.getD 0) +
        ((countNL (((uC7.code.getD "").toList).take sel.sstart) + 1 : Nat) : Int)) :=
  claim_C7.1 uC7 fC7 (by decide)

/-- C8: every finding's ending line is its starting line plus (the
snippet's newline count + 1), the snippet being the text between the
nearest newline before the span start and the nearest newline after the
span end; concretely a two-line statement is reported as lines 1-3. -/
theorem claim_C8 :
    (∀ (u : SourceUnit) (f : Finding), f ∈ scanFindings u →
      ∃ sel, sel ∈ find_selects ((u.code.getD "").toList) ∧ ∃ s : Int,
        f.starting_line = some s ∧
        f.ending_line = some (s + ((countNL (get_line_snippet
          ((u.code.getD "").toList) sel.sstart sel.send) + 1 : Nat) : Int))) ∧
    (∃ f, (scan_unit uC8).findings = some [f] ∧
      f.starting_line = some 1 ∧ f.ending_line = some 3) := by
  constructor
  · intro u f hf
    unfold scanFindings at hf
    rw [List.mem_filterMap] at hf
    obtain ⟨sel, hsel, hif⟩ := hf
    split at hif
    · injection hif with hif
      refine ⟨sel, hsel, (u.start_line.getD 0) +
        ((countNL (((u.code.getD "").toList).take sel.sstart) + 1 : Nat) : Int),
        ?_, ?_⟩
      · rw [← hif]
        rfl
      · rw [← hif]
        rfl
    · exact absurd hif (by simp)
  · exact ⟨_, rfl, rfl, rfl⟩

/-- Instance of the universal part of C8 at the computed finding of `uC8`. -/
theorem claim_C8_witness :
    ∃ sel, sel ∈ find_selects ((uC8.code.getD "").toList) ∧ ∃ s : Int,
      fC8.starting_line = some s ∧
      fC8.ending_line = some (s + ((countNL (get_line_snippet
        ((uC8.code.getD "").toList) sel.sstart sel.send) + 1 : Nat) : Int)) :=
  claim_C8.1 uC8 fC8 (by decide)

/-- C9: every span the locator produces contains an `INTO` token followed
by whitespace (the backbone of the required INTO target), so a SELECT
statement with no INTO target is never matched; concretely,
`SELECT * FROM vbrk WHERE vbeln = 1.` produces no span and no finding. -/
theorem claim_C9 :
    (∀ (txt : List Char) (m : SelMatch), m ∈ selectFinditer txt →
      containsIntoWs m.full = true) ∧
    selectFinditer stmtC9.toList = [] ∧
    (scan_unit uC9).findings = none := by
  refine ⟨?_, rfl, rfl⟩
  intro txt m hm
  exact selIterF_full txt.length txt 0 m hm

/-- Instance of the universal part of C9 at the single match of `stmtC1`. -/
theorem claim_C9_witness : containsIntoWs mC9w.full = true :=
  claim_C9.1 stmtC1.toList mC9w (by decide)

/-- C10: the draft-filter search does not anchor the alias at a word
boundary: whenever an alias Y passes the check, every suffix X of Y passes
it on the same statement text; concretely, a join with aliases A and BA and
a draft predicate only on BA is judged compliant (the A-check matches
inside `ba~draft = space`) and the scan reports no finding. -/
theorem claim_C10 :
    (∀ (stmt Y X : List Char), X <:+ Y → has_draft_check stmt Y = true →
      has_draft_check stmt X = true) ∧
    (find_selects stmtC10.toList).map Sel.tables =
      [[⟨kwVBRK, ['A']⟩, ⟨kwVBRP, ['B', 'A']⟩]] ∧
    has_draft_check stmtC10.toList ['B', 'A'] = true ∧
    (scan_unit uC10).findings = none := by
  refine ⟨?_, rfl, rfl, rfl⟩
  intro stmt Y X hXY h
  exact hasDraft_suffix_transfer hXY h

/-- Instance of the universal part of C10: alias A inherits the check from
alias BA on the C10 statement. -/
theorem claim_C10_witness : has_draft_check stmtC10.toList ['A'] = true :=
  claim_C10.1 stmtC10.toList ['B', 'A'] ['A'] ⟨['B'], rfl⟩ (by decide)
